import Mathlib

/-!
Verification of the subscription registry and broadcaster of
`firebase-admin-server` (`src/index.js`).

The registry state of the program is two module-level JavaScript `Map`s
(`orderClients : orderId -> Set of socket ids`,
`clientOrders : socket id -> Set of order ids`, src/index.js lines 72-73)
plus the socket.io room membership that the handlers maintain with
`socket.join` / `socket.leave`.  A JS `Map` preserves insertion order and
has at most one entry per key; a JS `Set` preserves insertion order and
holds each element at most once.  We embed both as association lists /
lists, with operations (`setK`, `delK`, `setAdd`, `setDel`, ...) that
mirror `Map.set`, `Map.delete`, `Set.add`, `Set.delete` exactly.
-/

namespace FirebaseAdminServer

/-- A JavaScript `Map` from strings to `Set`s of strings, embedded as an
insertion-ordered association list. -/
abbrev SMap := List (String × List String)

/-- Model of `m.has(k)` on a JS Map. -/
def hasKey : SMap → String → Bool
  | [], _ => false
  | p :: rest, k => p.1 == k || hasKey rest k

/-- Model of `m.get(k)` on a JS Map, defaulting to the empty set when the key is
absent (the handlers only call `get` under a `has` guard or after `set`). -/
def getD : SMap → String → List String
  | [], _ => []
  | p :: rest, k => if p.1 == k then p.2 else getD rest k

/-- Entry rewrite used by `setK`: overwrite the entry whose key is `k`. -/
def updEntry (k : String) (v : List String) (p : String × List String) :
    String × List String :=
  if p.1 == k then (k, v) else p

/-- Model of `m.set(k, v)` on a JS Map: replace the value in place when the key is
present, otherwise append a fresh entry. -/
def setK (m : SMap) (k : String) (v : List String) : SMap :=
  if hasKey m k then m.map (updEntry k v)
  else m ++ [(k, v)]

/-- Model of `m.delete(k)` on a JS Map. -/
def delK (m : SMap) (k : String) : SMap :=
  m.filter (fun p => !(p.1 == k))

/-- Model of `s.add(x)` on a JS Set: append when absent, no-op when present. -/
def setAdd (s : List String) (x : String) : List String :=
  if s.contains x then s else s ++ [x]

/-- Model of `s.delete(x)` on a JS Set. -/
def setDel (s : List String) (x : String) : List String :=
  s.filter (fun y => !(y == x))

/-- The full mutable state of the subscription registry: the two
module-level maps of src/index.js lines 72-73 and the socket.io room
membership (room name -> socket ids) that `socket.join`/`socket.leave`
maintain. -/
structure Registry where
  orderClients : SMap
  clientOrders : SMap
  rooms : SMap
deriving DecidableEq, Repr

/-- The initial state: both maps start as `new Map()` and no rooms exist. -/
def emptyRegistry : Registry := ⟨[], [], []⟩

/-- The pattern `if (!m.has(k)) m.set(k, new Set()); m.get(k).add(x)` used
by the subscribe handler on both maps (src/index.js lines 149-158). -/
def mapAddToSet (m : SMap) (k x : String) : SMap :=
  let m1 := if hasKey m k then m else setK m k []
  setK m1 k (setAdd (getD m1 k) x)

/-- The pattern `if (m.has(k)) { m.get(k).delete(x); if (m.get(k).size === 0)
m.delete(k); }` used on `orderClients` by the unsubscribe handler
(src/index.js lines 175-180) and by the disconnect loop body (lines 204-208). -/
def mapRemoveFromSet (m : SMap) (k x : String) : SMap :=
  if hasKey m k then
    if (setDel (getD m k) x).isEmpty then delK m k
    else setK m k (setDel (getD m k) x)
  else m

/-- The pattern `if (m.has(k)) m.get(k).delete(x)` used on `clientOrders`
by the unsubscribe handler (src/index.js lines 183-185): the entry is kept
even when its set becomes empty. -/
def mapRemoveKeep (m : SMap) (k x : String) : SMap :=
  if hasKey m k then setK m k (setDel (getD m k) x) else m

/-- The `subscribe-to-order` handler (src/index.js lines 145-168): adds the
socket to the order's subscriber set, the order to the socket's
subscription set, and joins the room `order-${orderId}`. -/
def subscribeToOrder (r : Registry) (sid oid : String) : Registry :=
  { orderClients := mapAddToSet r.orderClients oid sid
    clientOrders := mapAddToSet r.clientOrders sid oid
    rooms := mapAddToSet r.rooms ("order-" ++ oid) sid }

/-- The `unsubscribe-from-order` handler (src/index.js lines 171-194):
removes the socket from the order's subscriber set (deleting the entry when
it becomes empty), removes the order from the socket's subscription set
(keeping the entry even when empty), and leaves the room.  Room state after
`socket.leave` follows the socket.io adapter, which drops a room once it is
empty. -/
def unsubscribeFromOrder (r : Registry) (sid oid : String) : Registry :=
  { orderClients := mapRemoveFromSet r.orderClients oid sid
    clientOrders := mapRemoveKeep r.clientOrders sid oid
    rooms := mapRemoveFromSet r.rooms ("order-" ++ oid) sid }

/-- The `disconnect` handler (src/index.js lines 197-213): when the socket
has a `clientOrders` entry, removes it from the subscriber set of every
order in that entry (deleting orders whose set becomes empty), then deletes
the `clientOrders` entry itself; otherwise it does nothing.  The handler
touches only the two maps: the removal of the closed socket from its rooms
is performed inside the socket.io adapter, not by this handler, and is
deliberately left out of the embedding — a closed socket can no longer
receive a room emit, so the stale membership is unobservable, and no claim
about the handler depends on it. -/
def disconnectHandler (r : Registry) (sid : String) : Registry :=
  if hasKey r.clientOrders sid then
    { orderClients :=
        (getD r.clientOrders sid).foldl (fun m oid => mapRemoveFromSet m oid sid)
          r.orderClients
      clientOrders := delK r.clientOrders sid
      rooms := r.rooms }
  else r

/-- One registry operation, as triggered by the three socket event
handlers. -/
inductive Op where
  | subscribe (sid oid : String)
  | unsubscribe (sid oid : String)
  | disconnect (sid : String)
deriving DecidableEq, Repr

/-- Apply one operation to the registry. -/
def applyOp (r : Registry) : Op → Registry
  | .subscribe sid oid => subscribeToOrder r sid oid
  | .unsubscribe sid oid => unsubscribeFromOrder r sid oid
  | .disconnect sid => disconnectHandler r sid

/-- Run a sequence of operations from the empty registry. -/
def runOps (ops : List Op) : Registry :=
  ops.foldl applyOp emptyRegistry

/-! ### Basic lemmas about the JS `Map` / `Set` embedding -/

theorem updEntry_pos (k : String) (v : List String) (p : String × List String)
    (h : (p.1 == k) = true) : updEntry k v p = (k, v) := by
  simp [updEntry, h]

theorem updEntry_neg (k : String) (v : List String) (p : String × List String)
    (h : (p.1 == k) = false) : updEntry k v p = p := by
  simp [updEntry, h]

theorem getD_eq_nil_of_not_hasKey (m : SMap) (k : String) (h : hasKey m k = false) :
    getD m k = [] := by
  induction m with
  | nil => rfl
  | cons p rest ih =>
    simp only [hasKey, Bool.or_eq_false_iff] at h
    simp only [getD, h.1, Bool.false_eq_true, if_false]
    exact ih h.2

theorem hasKey_append (a b : SMap) (k : String) :
    hasKey (a ++ b) k = (hasKey a k || hasKey b k) := by
  induction a with
  | nil => simp [hasKey]
  | cons p rest ih => simp [hasKey, ih, Bool.or_assoc]

theorem getD_append (a b : SMap) (k : String) :
    getD (a ++ b) k = if hasKey a k then getD a k else getD b k := by
  induction a with
  | nil => simp [hasKey, getD]
  | cons p rest ih =>
    simp only [List.cons_append, getD, hasKey]
    by_cases hp : (p.1 == k) = true
    · simp [hp]
    · simp [hp, ih]

theorem hasKey_map_upd (m : SMap) (k : String) (v : List String) (k' : String) :
    hasKey (m.map (updEntry k v)) k' = hasKey m k' := by
  induction m with
  | nil => rfl
  | cons p rest ih =>
    simp only [List.map_cons, hasKey, ih]
    by_cases hp : (p.1 == k) = true
    · rw [updEntry_pos k v p hp]
      have hp' : p.1 = k := by simpa using hp
      rw [hp']
    · rw [updEntry_neg k v p (by simpa using hp)]

theorem getD_map_upd_self (m : SMap) (k : String) (v : List String)
    (h : hasKey m k = true) :
    getD (m.map (updEntry k v)) k = v := by
  induction m with
  | nil => simp [hasKey] at h
  | cons p rest ih =>
    simp only [List.map_cons, getD]
    by_cases hp : (p.1 == k) = true
    · rw [updEntry_pos k v p hp]
      simp
    · rw [updEntry_neg k v p (by simpa using hp), if_neg hp]
      apply ih
      simp only [hasKey, hp, Bool.false_or] at h
      exact h

theorem getD_map_upd_ne (m : SMap) (k : String) (v : List String) (k' : String)
    (h : k' ≠ k) :
    getD (m.map (updEntry k v)) k' = getD m k' := by
  induction m with
  | nil => rfl
  | cons p rest ih =>
    simp only [List.map_cons, getD]
    by_cases hp : (p.1 == k) = true
    · rw [updEntry_pos k v p hp]
      have hp' : p.1 = k := by simpa using hp
      have h1 : (k == k') = false := by
        rw [beq_eq_false_iff_ne]
        exact fun e => h e.symm
      have h2 : (p.1 == k') = false := by rw [hp']; exact h1
      rw [if_neg (by simp [h1]), if_neg (by simp [h2])]
      exact ih
    · rw [updEntry_neg k v p (by simpa using hp)]
      by_cases hq : (p.1 == k') = true
      · rw [if_pos hq, if_pos hq]
      · rw [if_neg hq, if_neg hq]
        exact ih

theorem getD_setK_self (m : SMap) (k : String) (v : List String) :
    getD (setK m k v) k = v := by
  unfold setK
  by_cases h : hasKey m k = true
  · rw [if_pos h]
    exact getD_map_upd_self m k v h
  · rw [if_neg h, getD_append, if_neg h]
    simp [getD]

theorem getD_setK_ne (m : SMap) (k : String) (v : List String) (k' : String)
    (h : k' ≠ k) : getD (setK m k v) k' = getD m k' := by
  unfold setK
  by_cases hk : hasKey m k = true
  · rw [if_pos hk]
    exact getD_map_upd_ne m k v k' h
  · rw [if_neg hk, getD_append]
    by_cases hk' : hasKey m k' = true
    · rw [if_pos hk']
    · rw [if_neg hk', getD_eq_nil_of_not_hasKey m k' (by simpa using hk')]
      simp only [getD]
      rw [if_neg]
      intro e
      exact h ((by simpa using e : k = k')).symm

theorem hasKey_setK (m : SMap) (k : String) (v : List String) (k' : String) :
    hasKey (setK m k v) k' = (hasKey m k' || (k' == k)) := by
  unfold setK
  by_cases h : hasKey m k = true
  · rw [if_pos h, hasKey_map_upd]
    by_cases hk : k' = k
    · subst hk
      rw [h]
      simp
    · have h1 : (k' == k) = false := by
        rw [beq_eq_false_iff_ne]
        exact hk
      rw [h1, Bool.or_false]
  · rw [if_neg h, hasKey_append]
    have h2 : hasKey [(k, v)] k' = (k' == k) := by
      by_cases e : k' = k
      · subst e
        simp [hasKey]
      · have e1 : (k == k') = false := by
          rw [beq_eq_false_iff_ne]
          exact fun x => e x.symm
        have e2 : (k' == k) = false := by
          rw [beq_eq_false_iff_ne]
          exact e
        simp [hasKey, e1, e2]
    rw [h2]

theorem hasKey_delK (m : SMap) (k k' : String) :
    hasKey (delK m k) k' = (hasKey m k' && !(k' == k)) := by
  induction m with
  | nil => rfl
  | cons p rest ih =>
    simp only [delK, List.filter_cons] at ih ⊢
    by_cases hp : (p.1 == k) = true
    · have hp' : p.1 = k := by simpa using hp
      rw [hp]
      simp only [Bool.not_true, Bool.false_eq_true, if_false, ih, hasKey]
      by_cases hk : k' = k
      · subst hk
        simp
      · have h2 : (p.1 == k') = false := by
          rw [hp', beq_eq_false_iff_ne]
          exact fun e => hk e.symm
        rw [h2, Bool.false_or]
    · rw [(by simpa using hp : (p.1 == k) = false)]
      simp only [Bool.not_false, if_true, hasKey, ih]
      by_cases hq : (p.1 == k') = true
      · have hq' : p.1 = k' := by simpa using hq
        have h3 : (k' == k) = false := by
          rw [beq_eq_false_iff_ne]
          intro e
          apply hp
          rw [hq', e]
          exact beq_self_eq_true k
        simp [hq, h3]
      · have hq2 : (p.1 == k') = false := by simpa using hq
        simp [hq2]

theorem getD_delK_self (m : SMap) (k : String) : getD (delK m k) k = [] := by
  apply getD_eq_nil_of_not_hasKey
  rw [hasKey_delK]
  simp

theorem getD_delK_ne (m : SMap) (k k' : String) (h : k' ≠ k) :
    getD (delK m k) k' = getD m k' := by
  induction m with
  | nil => rfl
  | cons p rest ih =>
    simp only [delK, List.filter_cons] at ih ⊢
    by_cases hp : (p.1 == k) = true
    · have hp' : p.1 = k := by simpa using hp
      have h1 : (p.1 == k') = false := by
        rw [hp', beq_eq_false_iff_ne]
        exact fun e => h e.symm
      rw [hp]
      simp only [Bool.not_true, Bool.false_eq_true, if_false, getD, h1, ih]
    · rw [(by simpa using hp : (p.1 == k) = false)]
      simp only [Bool.not_false, if_true, getD]
      by_cases hq : (p.1 == k') = true
      · rw [if_pos hq, if_pos hq]
      · rw [if_neg hq, if_neg hq]
        exact ih

theorem mem_setAdd (s : List String) (x y : String) :
    y ∈ setAdd s x ↔ y ∈ s ∨ y = x := by
  unfold setAdd
  by_cases h : s.contains x = true
  · rw [if_pos h]
    have hx : x ∈ s := by simpa using h
    exact ⟨fun hy => Or.inl hy, fun hy => hy.elim id (fun e => e ▸ hx)⟩
  · rw [if_neg h]
    simp [List.mem_append]

theorem mem_setDel (s : List String) (x y : String) :
    y ∈ setDel s x ↔ y ∈ s ∧ y ≠ x := by
  simp [setDel, List.mem_filter]

theorem setDel_setDel (s : List String) (x : String) :
    setDel (setDel s x) x = setDel s x := by
  simp [setDel, List.filter_filter]

theorem setAdd_ne_nil (s : List String) (x : String) : setAdd s x ≠ [] := by
  unfold setAdd
  by_cases h : s.contains x = true
  · rw [if_pos h]
    intro hnil
    subst hnil
    simp at h
  · rw [if_neg h]
    simp

theorem setDel_eq_nil_iff (s : List String) (x : String) :
    setDel s x = [] ↔ ∀ y ∈ s, y = x := by
  simp [setDel, List.filter_eq_nil_iff]

/-! ### Characterizations of the three map-mutation patterns -/

theorem getD_mapAddToSet_self (m : SMap) (k x : String) :
    getD (mapAddToSet m k x) k = setAdd (getD m k) x := by
  unfold mapAddToSet
  by_cases h : hasKey m k = true
  · rw [if_pos h, getD_setK_self]
  · rw [if_neg h, getD_setK_self, getD_setK_self,
      getD_eq_nil_of_not_hasKey m k (by simpa using h)]

theorem getD_mapAddToSet_ne (m : SMap) (k x k' : String) (h : k' ≠ k) :
    getD (mapAddToSet m k x) k' = getD m k' := by
  unfold mapAddToSet
  by_cases hk : hasKey m k = true
  · rw [if_pos hk, getD_setK_ne _ _ _ _ h]
  · rw [if_neg hk, getD_setK_ne _ _ _ _ h, getD_setK_ne _ _ _ _ h]

theorem hasKey_mapAddToSet (m : SMap) (k x k' : String) :
    hasKey (mapAddToSet m k x) k' = (hasKey m k' || (k' == k)) := by
  unfold mapAddToSet
  by_cases hk : hasKey m k = true
  · rw [if_pos hk, hasKey_setK]
  · rw [if_neg hk, hasKey_setK, hasKey_setK, Bool.or_assoc, Bool.or_self]

theorem getD_mapRemoveFromSet_self (m : SMap) (k x : String) :
    getD (mapRemoveFromSet m k x) k = setDel (getD m k) x := by
  unfold mapRemoveFromSet
  by_cases h : hasKey m k = true
  · rw [if_pos h]
    by_cases he : (setDel (getD m k) x).isEmpty = true
    · rw [if_pos he, getD_delK_self]
      exact (List.isEmpty_iff.mp he).symm
    · rw [if_neg he, getD_setK_self]
  · rw [if_neg h, getD_eq_nil_of_not_hasKey m k (by simpa using h)]
    rfl

theorem getD_mapRemoveFromSet_ne (m : SMap) (k x k' : String) (h : k' ≠ k) :
    getD (mapRemoveFromSet m k x) k' = getD m k' := by
  unfold mapRemoveFromSet
  by_cases hk : hasKey m k = true
  · rw [if_pos hk]
    by_cases he : (setDel (getD m k) x).isEmpty = true
    · rw [if_pos he]
      exact getD_delK_ne m k k' h
    · rw [if_neg he]
      exact getD_setK_ne _ _ _ _ h
  · rw [if_neg hk]

theorem hasKey_mapRemoveFromSet (m : SMap) (k x k' : String) :
    hasKey (mapRemoveFromSet m k x) k' =
      (hasKey m k' && !((k' == k) && (setDel (getD m k) x).isEmpty)) := by
  unfold mapRemoveFromSet
  by_cases hk : hasKey m k = true
  · rw [if_pos hk]
    by_cases he : (setDel (getD m k) x).isEmpty = true
    · rw [if_pos he, hasKey_delK, he, Bool.and_true]
    · rw [if_neg he, hasKey_setK, (by simpa using he : (setDel (getD m k) x).isEmpty = false),
        Bool.and_false, Bool.not_false, Bool.and_true]
      by_cases hk' : k' = k
      · subst hk'
        rw [hk]
        simp
      · rw [(by rw [beq_eq_false_iff_ne]; exact hk' : (k' == k) = false), Bool.or_false]
  · rw [if_neg hk]
    by_cases hk' : k' = k
    · subst hk'
      rw [(by simpa using hk : hasKey m k' = false), Bool.false_and]
    · rw [(by rw [beq_eq_false_iff_ne]; exact hk' : (k' == k) = false), Bool.false_and,
        Bool.not_false, Bool.and_true]

theorem getD_mapRemoveKeep_self (m : SMap) (k x : String) :
    getD (mapRemoveKeep m k x) k = setDel (getD m k) x := by
  unfold mapRemoveKeep
  by_cases h : hasKey m k = true
  · rw [if_pos h, getD_setK_self]
  · rw [if_neg h, getD_eq_nil_of_not_hasKey m k (by simpa using h)]
    rfl

theorem getD_mapRemoveKeep_ne (m : SMap) (k x k' : String) (h : k' ≠ k) :
    getD (mapRemoveKeep m k x) k' = getD m k' := by
  unfold mapRemoveKeep
  by_cases hk : hasKey m k = true
  · rw [if_pos hk]
    exact getD_setK_ne _ _ _ _ h
  · rw [if_neg hk]

theorem hasKey_mapRemoveKeep (m : SMap) (k x k' : String) :
    hasKey (mapRemoveKeep m k x) k' = hasKey m k' := by
  unfold mapRemoveKeep
  by_cases hk : hasKey m k = true
  · rw [if_pos hk, hasKey_setK]
    by_cases hk' : k' = k
    · subst hk'
      rw [hk]
      simp
    · rw [(by rw [beq_eq_false_iff_ne]; exact hk' : (k' == k) = false), Bool.or_false]
  · rw [if_neg hk]

/-! ### Registry-level projection lemmas -/

theorem subscribe_orderClients (r : Registry) (sid oid : String) :
    (subscribeToOrder r sid oid).orderClients = mapAddToSet r.orderClients oid sid := rfl

theorem subscribe_clientOrders (r : Registry) (sid oid : String) :
    (subscribeToOrder r sid oid).clientOrders = mapAddToSet r.clientOrders sid oid := rfl

theorem unsubscribe_orderClients (r : Registry) (sid oid : String) :
    (unsubscribeFromOrder r sid oid).orderClients =
      mapRemoveFromSet r.orderClients oid sid := rfl

theorem unsubscribe_clientOrders (r : Registry) (sid oid : String) :
    (unsubscribeFromOrder r sid oid).clientOrders =
      mapRemoveKeep r.clientOrders sid oid := rfl

theorem disconnect_orderClients (r : Registry) (sid : String)
    (hk : hasKey r.clientOrders sid = true) :
    (disconnectHandler r sid).orderClients =
      (getD r.clientOrders sid).foldl (fun m oid => mapRemoveFromSet m oid sid)
        r.orderClients := by
  unfold disconnectHandler
  rw [if_pos hk]

theorem disconnect_clientOrders (r : Registry) (sid : String)
    (hk : hasKey r.clientOrders sid = true) :
    (disconnectHandler r sid).clientOrders = delK r.clientOrders sid := by
  unfold disconnectHandler
  rw [if_pos hk]

theorem disconnect_eq_self (r : Registry) (sid : String)
    (hk : hasKey r.clientOrders sid = false) :
    disconnectHandler r sid = r := by
  unfold disconnectHandler
  rw [if_neg (by simp [hk])]

theorem getD_foldl_remove (oids : List String) (m : SMap) (sid t : String) :
    getD (oids.foldl (fun m oid => mapRemoveFromSet m oid sid) m) t =
      if t ∈ oids then setDel (getD m t) sid else getD m t := by
  induction oids generalizing m with
  | nil => simp
  | cons o os ih =>
    simp only [List.foldl_cons]
    rw [ih]
    by_cases ho : t = o
    · subst ho
      rw [getD_mapRemoveFromSet_self, if_pos (List.mem_cons_self t os)]
      by_cases ht : t ∈ os
      · rw [if_pos ht, setDel_setDel]
      · rw [if_neg ht]
    · rw [getD_mapRemoveFromSet_ne _ _ _ _ ho]
      by_cases ht : t ∈ os
      · rw [if_pos ht, if_pos (List.mem_cons_of_mem o ht)]
      · rw [if_neg ht, if_neg (by simp [ho, ht])]

theorem hasKey_mapRemoveFromSet_iff (m : SMap) (k x k' : String) :
    hasKey (mapRemoveFromSet m k x) k' = true ↔
      hasKey m k' = true ∧ ¬(k' = k ∧ setDel (getD m k) x = []) := by
  rw [hasKey_mapRemoveFromSet, Bool.and_eq_true, Bool.not_eq_true',
    Bool.and_eq_false_iff]
  constructor
  · rintro ⟨h1, h2⟩
    refine ⟨h1, fun hc => ?_⟩
    rcases h2 with h2 | h2
    · rw [beq_eq_false_iff_ne] at h2
      exact h2 hc.1
    · rw [← List.isEmpty_iff] at hc
      rw [hc.2] at h2
      exact absurd h2 (by simp)
  · rintro ⟨h1, h2⟩
    refine ⟨h1, ?_⟩
    by_cases he : k' = k
    · right
      rcases hn : (setDel (getD m k) x).isEmpty with _ | _
      · rfl
      · exact absurd ⟨he, List.isEmpty_iff.mp hn⟩ h2
    · left
      rw [beq_eq_false_iff_ne]
      exact he

theorem hasKey_foldl_remove (oids : List String) (m : SMap) (sid t : String) :
    hasKey (oids.foldl (fun m oid => mapRemoveFromSet m oid sid) m) t = true ↔
      hasKey m t = true ∧ (t ∈ oids → setDel (getD m t) sid ≠ []) := by
  induction oids generalizing m with
  | nil => simp
  | cons o os ih =>
    simp only [List.foldl_cons]
    rw [ih]
    by_cases ho : t = o
    · subst ho
      rw [getD_mapRemoveFromSet_self, setDel_setDel, hasKey_mapRemoveFromSet_iff]
      constructor
      · rintro ⟨⟨h1, h2⟩, _⟩
        exact ⟨h1, fun _ => fun he => h2 ⟨rfl, he⟩⟩
      · rintro ⟨h1, h2⟩
        have h3 := h2 (List.mem_cons_self t os)
        exact ⟨⟨h1, fun hc => h3 hc.2⟩, fun _ => h3⟩
    · rw [getD_mapRemoveFromSet_ne _ _ _ _ ho, hasKey_mapRemoveFromSet_iff]
      constructor
      · rintro ⟨⟨h1, _⟩, h2⟩
        exact ⟨h1, fun hm => h2 ((List.mem_cons.mp hm).resolve_left ho)⟩
      · rintro ⟨h1, h2⟩
        exact ⟨⟨h1, fun hc => ho hc.1⟩, fun hm => h2 (List.mem_cons_of_mem o hm)⟩

/-! ### The forward/reverse consistency invariant (claim C1) -/

/-- Mutual consistency of the two indices: a socket is in an order's
subscriber set exactly when the order is in the socket's subscription set. -/
def Inv (r : Registry) : Prop :=
  ∀ t h, h ∈ getD r.orderClients t ↔ t ∈ getD r.clientOrders h

theorem inv_empty : Inv emptyRegistry := by
  intro t h
  simp [emptyRegistry, getD]

theorem inv_subscribe (r : Registry) (sid oid : String) (hr : Inv r) :
    Inv (subscribeToOrder r sid oid) := by
  intro t h
  rw [subscribe_orderClients, subscribe_clientOrders]
  by_cases ht : t = oid
  · subst ht
    rw [getD_mapAddToSet_self, mem_setAdd]
    by_cases hh : h = sid
    · subst hh
      rw [getD_mapAddToSet_self, mem_setAdd]
      exact ⟨fun _ => Or.inr rfl, fun _ => Or.inr rfl⟩
    · rw [getD_mapAddToSet_ne _ _ _ _ hh]
      constructor
      · rintro (hmem | he)
        · exact (hr t h).mp hmem
        · exact absurd he hh
      · intro hmem
        exact Or.inl ((hr t h).mpr hmem)
  · rw [getD_mapAddToSet_ne _ _ _ _ ht]
    by_cases hh : h = sid
    · subst hh
      rw [getD_mapAddToSet_self, mem_setAdd]
      constructor
      · intro hmem
        exact Or.inl ((hr t h).mp hmem)
      · rintro (hmem | he)
        · exact (hr t h).mpr hmem
        · exact absurd he ht
    · rw [getD_mapAddToSet_ne _ _ _ _ hh]
      exact hr t h

theorem inv_unsubscribe (r : Registry) (sid oid : String) (hr : Inv r) :
    Inv (unsubscribeFromOrder r sid oid) := by
  intro t h
  rw [unsubscribe_orderClients, unsubscribe_clientOrders]
  by_cases ht : t = oid
  · subst ht
    rw [getD_mapRemoveFromSet_self, mem_setDel]
    by_cases hh : h = sid
    · subst hh
      rw [getD_mapRemoveKeep_self, mem_setDel]
      exact ⟨fun hc => absurd rfl hc.2, fun hc => absurd rfl hc.2⟩
    · rw [getD_mapRemoveKeep_ne _ _ _ _ hh]
      constructor
      · rintro ⟨hmem, _⟩
        exact (hr t h).mp hmem
      · intro hmem
        exact ⟨(hr t h).mpr hmem, hh⟩
  · rw [getD_mapRemoveFromSet_ne _ _ _ _ ht]
    by_cases hh : h = sid
    · subst hh
      rw [getD_mapRemoveKeep_self, mem_setDel]
      constructor
      · intro hmem
        exact ⟨(hr t h).mp hmem, ht⟩
      · rintro ⟨hmem, _⟩
        exact (hr t h).mpr hmem
    · rw [getD_mapRemoveKeep_ne _ _ _ _ hh]
      exact hr t h

theorem inv_disconnect (r : Registry) (sid : String) (hr : Inv r) :
    Inv (disconnectHandler r sid) := by
  by_cases hk : hasKey r.clientOrders sid = true
  · intro t h
    rw [disconnect_orderClients r sid hk, disconnect_clientOrders r sid hk,
      getD_foldl_remove]
    by_cases hh : h = sid
    · subst hh
      rw [getD_delK_self]
      simp only [List.not_mem_nil, iff_false]
      by_cases ht : t ∈ getD r.clientOrders h
      · rw [if_pos ht, mem_setDel]
        rintro ⟨_, he⟩
        exact he rfl
      · rw [if_neg ht]
        intro hmem
        exact ht ((hr t h).mp hmem)
    · rw [getD_delK_ne _ _ _ hh]
      by_cases ht : t ∈ getD r.clientOrders sid
      · rw [if_pos ht, mem_setDel]
        constructor
        · rintro ⟨hmem, _⟩
          exact (hr t h).mp hmem
        · intro hmem
          exact ⟨(hr t h).mpr hmem, hh⟩
      · rw [if_neg ht]
        exact hr t h
  · rw [disconnect_eq_self r sid (by simpa using hk)]
    exact hr

theorem inv_applyOp (r : Registry) (op : Op) (hr : Inv r) : Inv (applyOp r op) := by
  cases op with
  | subscribe sid oid => exact inv_subscribe r sid oid hr
  | unsubscribe sid oid => exact inv_unsubscribe r sid oid hr
  | disconnect sid => exact inv_disconnect r sid hr

theorem inv_foldl (ops : List Op) (r : Registry) (hr : Inv r) :
    Inv (ops.foldl applyOp r) := by
  induction ops generalizing r with
  | nil => exact hr
  | cons op ops ih =>
    simp only [List.foldl_cons]
    exact ih (applyOp r op) (inv_applyOp r op hr)

/-- C1: for every sequence of Subscribe, Unsubscribe, and Disconnect
operations starting from the empty registry, handle `h` is in the forward
index entry of topic `t` (`orderClients`) if and only if `t` is in the
reverse index entry of `h` (`clientOrders`). -/
theorem C1_forward_reverse_consistent (ops : List Op) (t h : String) :
    h ∈ getD (runOps ops).orderClients t ↔ t ∈ getD (runOps ops).clientOrders h :=
  inv_foldl ops emptyRegistry inv_empty t h

/-! ### No empty forward-index entries (claim C4) -/

theorem hasKey_of_mem (m : SMap) (p : String × List String) (hp : p ∈ m) :
    hasKey m p.1 = true := by
  induction m with
  | nil => cases hp
  | cons q rest ih =>
    rcases List.mem_cons.mp hp with rfl | hp
    · simp [hasKey]
    · simp [hasKey, ih hp]

theorem mem_setK (m : SMap) (k : String) (v : List String)
    (p : String × List String) (hp : p ∈ setK m k v) :
    p = (k, v) ∨ (p ∈ m ∧ p.1 ≠ k) := by
  unfold setK at hp
  by_cases h : hasKey m k = true
  · rw [if_pos h] at hp
    rcases List.mem_map.mp hp with ⟨q, hq, he⟩
    unfold updEntry at he
    by_cases hqk : (q.1 == k) = true
    · rw [if_pos hqk] at he
      exact Or.inl he.symm
    · rw [if_neg hqk] at he
      rw [← he]
      exact Or.inr ⟨hq, by simpa using hqk⟩
  · rw [if_neg h] at hp
    rcases List.mem_append.mp hp with hq | hq
    · refine Or.inr ⟨hq, fun he => ?_⟩
      have := hasKey_of_mem m p hq
      rw [he] at this
      exact h this
    · exact Or.inl (by simpa using hq)

theorem mem_delK (m : SMap) (k : String) (p : String × List String)
    (hp : p ∈ delK m k) : p ∈ m :=
  List.mem_of_mem_filter hp

theorem mem_mapAddToSet (m : SMap) (k x : String) (p : String × List String)
    (hp : p ∈ mapAddToSet m k x) :
    p = (k, setAdd (getD m k) x) ∨ (p ∈ m ∧ p.1 ≠ k) := by
  unfold mapAddToSet at hp
  by_cases h : hasKey m k = true
  · rw [if_pos h] at hp
    exact mem_setK _ _ _ _ hp
  · rw [if_neg h] at hp
    rcases mem_setK _ _ _ _ hp with he | ⟨hm, hk⟩
    · rw [getD_setK_self] at he
      rw [getD_eq_nil_of_not_hasKey m k (by simpa using h)]
      exact Or.inl he
    · rcases mem_setK _ _ _ _ hm with he | ⟨hm2, _⟩
      · exact absurd (by rw [he]) hk
      · exact Or.inr ⟨hm2, hk⟩

theorem mem_mapRemoveFromSet (m : SMap) (k x : String) (p : String × List String)
    (hp : p ∈ mapRemoveFromSet m k x) :
    (p = (k, setDel (getD m k) x) ∧ setDel (getD m k) x ≠ []) ∨ p ∈ m := by
  unfold mapRemoveFromSet at hp
  by_cases h : hasKey m k = true
  · rw [if_pos h] at hp
    by_cases he : (setDel (getD m k) x).isEmpty = true
    · rw [if_pos he] at hp
      exact Or.inr (mem_delK _ _ _ hp)
    · rw [if_neg he] at hp
      rcases mem_setK _ _ _ _ hp with h1 | ⟨h1, _⟩
      · exact Or.inl ⟨h1, fun hn => he (List.isEmpty_iff.mpr hn)⟩
      · exact Or.inr h1
  · rw [if_neg h] at hp
    exact Or.inr hp

/-- No entry of the forward index holds an empty subscriber set. -/
def NoEmptyTopics (r : Registry) : Prop :=
  ∀ p ∈ r.orderClients, p.2 ≠ []

theorem noEmpty_mapAddToSet (m : SMap) (k x : String)
    (h : ∀ p ∈ m, p.2 ≠ []) : ∀ p ∈ mapAddToSet m k x, p.2 ≠ [] := by
  intro p hp
  rcases mem_mapAddToSet m k x p hp with he | ⟨hm, _⟩
  · rw [he]
    exact setAdd_ne_nil _ _
  · exact h p hm

theorem noEmpty_mapRemoveFromSet (m : SMap) (k x : String)
    (h : ∀ p ∈ m, p.2 ≠ []) : ∀ p ∈ mapRemoveFromSet m k x, p.2 ≠ [] := by
  intro p hp
  rcases mem_mapRemoveFromSet m k x p hp with ⟨he, hn⟩ | hm
  · rw [he]
    exact hn
  · exact h p hm

theorem noEmpty_foldl_remove (oids : List String) (m : SMap) (sid : String)
    (h : ∀ p ∈ m, p.2 ≠ []) :
    ∀ p ∈ oids.foldl (fun m oid => mapRemoveFromSet m oid sid) m, p.2 ≠ [] := by
  induction oids generalizing m with
  | nil => exact h
  | cons o os ih =>
    simp only [List.foldl_cons]
    exact ih (mapRemoveFromSet m o sid) (noEmpty_mapRemoveFromSet m o sid h)

theorem noEmpty_applyOp (r : Registry) (op : Op) (hr : NoEmptyTopics r) :
    NoEmptyTopics (applyOp r op) := by
  cases op with
  | subscribe sid oid => exact noEmpty_mapAddToSet r.orderClients oid sid hr
  | unsubscribe sid oid => exact noEmpty_mapRemoveFromSet r.orderClients oid sid hr
  | disconnect sid =>
    show NoEmptyTopics (disconnectHandler r sid)
    by_cases hk : hasKey r.clientOrders sid = true
    · intro p hp
      rw [disconnect_orderClients r sid hk] at hp
      exact noEmpty_foldl_remove _ r.orderClients sid hr p hp
    · rw [disconnect_eq_self r sid (by simpa using hk)]
      exact hr

theorem noEmpty_foldl (ops : List Op) (r : Registry) (hr : NoEmptyTopics r) :
    NoEmptyTopics (ops.foldl applyOp r) := by
  induction ops generalizing r with
  | nil => exact hr
  | cons op ops ih =>
    simp only [List.foldl_cons]
    exact ih (applyOp r op) (noEmpty_applyOp r op hr)

/-- C4: every state reachable from the empty registry has no forward-index
entry with an empty subscriber set, and unsubscribing the last subscriber
of a topic removes the topic from the forward index entirely. -/
theorem C4_no_empty_topics (ops : List Op) (t h : String) :
    (∀ p ∈ (runOps ops).orderClients, p.2 ≠ []) ∧
    (getD (runOps ops).orderClients t = [h] →
      hasKey (unsubscribeFromOrder (runOps ops) h t).orderClients t = false) := by
  constructor
  · exact noEmpty_foldl ops emptyRegistry (fun p hp => by cases hp)
  · intro hlast
    rw [unsubscribe_orderClients, hasKey_mapRemoveFromSet, hlast]
    have hd : setDel [h] h = [] := by simp [setDel]
    rw [hd]
    simp

/-- Witness for C4 at the concrete run `Subscribe("H","T")`. -/
theorem C4_no_empty_topics_witness :
    ((runOps [Op.subscribe "H" "T"]).orderClients = [("T", ["H"])]) ∧
    hasKey (unsubscribeFromOrder (runOps [Op.subscribe "H" "T"]) "H" "T").orderClients
      "T" = false :=
  ⟨by decide, (C4_no_empty_topics [Op.subscribe "H" "T"] "T" "H").2 (by decide)⟩

/-! ### Disconnect semantics (claim C5) -/

/-- C5: `disconnect` removes the socket from the subscriber set of every
topic in its reverse-index entry, prunes topics whose set becomes empty,
deletes the reverse-index entry entirely, and is the identity when the
socket has no reverse-index entry. -/
theorem C5_disconnect_cleanup (r : Registry) (sid : String) :
    (∀ t, t ∈ getD r.clientOrders sid →
      sid ∉ getD (disconnectHandler r sid).orderClients t) ∧
    (∀ t, t ∈ getD r.clientOrders sid → (∀ y ∈ getD r.orderClients t, y = sid) →
      hasKey (disconnectHandler r sid).orderClients t = false) ∧
    hasKey (disconnectHandler r sid).clientOrders sid = false ∧
    (hasKey r.clientOrders sid = false → disconnectHandler r sid = r) := by
  by_cases hk : hasKey r.clientOrders sid = true
  · refine ⟨?_, ?_, ?_, ?_⟩
    · intro t ht
      rw [disconnect_orderClients r sid hk, getD_foldl_remove, if_pos ht, mem_setDel]
      rintro ⟨_, he⟩
      exact he rfl
    · intro t ht hall
      rw [disconnect_orderClients r sid hk]
      cases hfk : hasKey ((getD r.clientOrders sid).foldl
          (fun m oid => mapRemoveFromSet m oid sid) r.orderClients) t with
      | false => rfl
      | true =>
        have h2 := (hasKey_foldl_remove _ _ _ _).mp hfk
        exact absurd ((setDel_eq_nil_iff _ _).mpr hall) (h2.2 ht)
    · rw [disconnect_clientOrders r sid hk, hasKey_delK]
      simp
    · intro hcon
      rw [hk] at hcon
      cases hcon
  · have hk' : hasKey r.clientOrders sid = false := by simpa using hk
    have hnil : getD r.clientOrders sid = [] := getD_eq_nil_of_not_hasKey _ _ hk'
    refine ⟨?_, ?_, ?_, fun _ => disconnect_eq_self r sid hk'⟩
    · intro t ht
      rw [hnil] at ht
      cases ht
    · intro t ht
      rw [hnil] at ht
      cases ht
    · rw [disconnect_eq_self r sid hk']
      exact hk'

/-- Witness for C5 at the concrete registry `Subscribe("H","T")` and at the
never-subscribed handle `"X"` of the empty registry. -/
theorem C5_disconnect_cleanup_witness :
    ("H" ∉ getD (disconnectHandler (subscribeToOrder emptyRegistry "H" "T") "H").orderClients
      "T") ∧
    hasKey (disconnectHandler (subscribeToOrder emptyRegistry "H" "T") "H").orderClients
      "T" = false ∧
    hasKey (disconnectHandler (subscribeToOrder emptyRegistry "H" "T") "H").clientOrders
      "H" = false ∧
    disconnectHandler emptyRegistry "X" = emptyRegistry := by
  refine ⟨(C5_disconnect_cleanup (subscribeToOrder emptyRegistry "H" "T") "H").1 "T"
      (by decide),
    (C5_disconnect_cleanup (subscribeToOrder emptyRegistry "H" "T") "H").2.1 "T"
      (by decide) (by decide),
    (C5_disconnect_cleanup (subscribeToOrder emptyRegistry "H" "T") "H").2.2.1,
    (C5_disconnect_cleanup emptyRegistry "X").2.2.2 (by decide)⟩

/-! ### The reverse-index entry outlives its last topic (claim C10) -/

/-- C10: `unsubscribe` never deletes a reverse-index entry (keys of
`clientOrders` are untouched); the state reached by subscribing and then
unsubscribing maps the handle to an empty set; and the only operation that
deletes a reverse-index entry is `disconnect` of that same handle. -/
theorem C10_reverse_entry_persists (r : Registry) (sid oid h' : String) (op : Op) :
    (hasKey (unsubscribeFromOrder r sid oid).clientOrders h' =
      hasKey r.clientOrders h') ∧
    (hasKey (runOps [Op.subscribe "H" "T", Op.unsubscribe "H" "T"]).clientOrders
        "H" = true ∧
      getD (runOps [Op.subscribe "H" "T", Op.unsubscribe "H" "T"]).clientOrders
        "H" = []) ∧
    (hasKey r.clientOrders h' = true →
      hasKey (applyOp r op).clientOrders h' = true ∨ op = Op.disconnect h') := by
  refine ⟨?_, by decide, ?_⟩
  · rw [unsubscribe_clientOrders, hasKey_mapRemoveKeep]
  · intro hh
    cases op with
    | subscribe sid2 oid2 =>
      left
      show hasKey (subscribeToOrder r sid2 oid2).clientOrders h' = true
      rw [subscribe_clientOrders, hasKey_mapAddToSet, hh, Bool.true_or]
    | unsubscribe sid2 oid2 =>
      left
      show hasKey (unsubscribeFromOrder r sid2 oid2).clientOrders h' = true
      rw [unsubscribe_clientOrders, hasKey_mapRemoveKeep]
      exact hh
    | disconnect sid2 =>
      by_cases he : h' = sid2
      · subst he
        right
        rfl
      · left
        show hasKey (disconnectHandler r sid2).clientOrders h' = true
        by_cases hk : hasKey r.clientOrders sid2 = true
        · rw [disconnect_clientOrders r sid2 hk, hasKey_delK, hh, Bool.true_and,
            (by rw [beq_eq_false_iff_ne]; exact he : (h' == sid2) = false)]
          rfl
        · rw [disconnect_eq_self r sid2 (by simpa using hk)]
          exact hh

/-- Witness for C10: the third conjunct applied at the concrete state
`Subscribe("H","T")` and the operation `Unsubscribe("H","T")`. -/
theorem C10_reverse_entry_persists_witness :
    hasKey (applyOp (subscribeToOrder emptyRegistry "H" "T")
        (Op.unsubscribe "H" "T")).clientOrders "H" = true ∨
      Op.unsubscribe "H" "T" = Op.disconnect "H" :=
  (C10_reverse_entry_persists (subscribeToOrder emptyRegistry "H" "T") "H" "T" "H"
    (Op.unsubscribe "H" "T")).2.2 (by decide)

/-! ### Well-formedness: the representation invariant of JS Map and Set
(unique keys, no duplicate set elements) -/

/-- The representation invariant a JS runtime maintains for the registry:
each `Map` has at most one entry per key and each `Set` holds an element at
most once. -/
def WF (r : Registry) : Prop :=
  (r.orderClients.map Prod.fst).Nodup ∧ (r.clientOrders.map Prod.fst).Nodup ∧
  (r.rooms.map Prod.fst).Nodup ∧ (∀ p ∈ r.orderClients, p.2.Nodup) ∧
  (∀ p ∈ r.clientOrders, p.2.Nodup) ∧ (∀ p ∈ r.rooms, p.2.Nodup)

instance (r : Registry) : Decidable (WF r) := by
  unfold WF
  infer_instance

theorem map_eq_of_forall {α β : Type} (l : List α) (f g : α → β)
    (h : ∀ a ∈ l, f a = g a) : l.map f = l.map g := by
  induction l with
  | nil => rfl
  | cons a t ih =>
    simp only [List.map_cons]
    rw [h a (List.mem_cons_self a t), ih (fun b hb => h b (List.mem_cons_of_mem a hb))]

theorem getD_eq_of_mem_nodup (m : SMap) (p : String × List String)
    (hn : (m.map Prod.fst).Nodup) (hp : p ∈ m) : getD m p.1 = p.2 := by
  induction m with
  | nil => cases hp
  | cons q rest ih =>
    simp only [List.map_cons, List.nodup_cons] at hn
    rcases List.mem_cons.mp hp with rfl | hp
    · simp [getD]
    · have hq : (q.1 == p.1) = false := by
        rw [beq_eq_false_iff_ne]
        intro e
        rw [e] at hn
        exact hn.1 (List.mem_map_of_mem Prod.fst hp)
      simp only [getD, hq, Bool.false_eq_true, if_false]
      exact ih hn.2 hp

theorem keys_setK (m : SMap) (k : String) (v : List String)
    (h : hasKey m k = true) : (setK m k v).map Prod.fst = m.map Prod.fst := by
  unfold setK
  rw [if_pos h, List.map_map]
  apply map_eq_of_forall
  intro p _
  show Prod.fst (updEntry k v p) = p.1
  unfold updEntry
  by_cases hp : (p.1 == k) = true
  · rw [if_pos hp]
    exact ((by simpa using hp : p.1 = k)).symm
  · rw [if_neg hp]

theorem setK_getD_self (m : SMap) (k : String) (hn : (m.map Prod.fst).Nodup)
    (hk : hasKey m k = true) : setK m k (getD m k) = m := by
  unfold setK
  rw [if_pos hk]
  have hall : ∀ p ∈ m, updEntry k (getD m k) p = p := by
    intro p hp
    unfold updEntry
    by_cases hpk : (p.1 == k) = true
    · rw [if_pos hpk]
      have he : p.1 = k := by simpa using hpk
      rw [← he, getD_eq_of_mem_nodup m p hn hp]
    · rw [if_neg hpk]
  calc m.map (updEntry k (getD m k)) = m.map id := map_eq_of_forall m _ id hall
    _ = m := List.map_id m

theorem hasKey_iff_mem_keys (m : SMap) (k : String) :
    hasKey m k = true ↔ k ∈ m.map Prod.fst := by
  induction m with
  | nil => simp [hasKey]
  | cons p rest ih =>
    simp only [hasKey, List.map_cons, List.mem_cons, Bool.or_eq_true, ih]
    constructor
    · rintro (he | hm)
      · have he' : p.1 = k := by simpa using he
        exact Or.inl he'.symm
      · exact Or.inr hm
    · rintro (he | hm)
      · exact Or.inl (by simp [he])
      · exact Or.inr hm

theorem mapAddToSet_of_hasKey (m : SMap) (k x : String) (h : hasKey m k = true) :
    mapAddToSet m k x = setK m k (setAdd (getD m k) x) := by
  unfold mapAddToSet
  rw [if_pos h]

theorem keys_nodup_mapAddToSet (m : SMap) (k x : String)
    (hn : (m.map Prod.fst).Nodup) : ((mapAddToSet m k x).map Prod.fst).Nodup := by
  by_cases h : hasKey m k = true
  · rw [mapAddToSet_of_hasKey _ _ _ h, keys_setK _ _ _ h]
    exact hn
  · unfold mapAddToSet
    rw [if_neg h]
    have h1 : hasKey (setK m k []) k = true := by
      rw [hasKey_setK]
      simp
    rw [keys_setK _ _ _ h1]
    unfold setK
    rw [if_neg h, List.map_append]
    rw [List.nodup_append]
    refine ⟨hn, List.nodup_singleton k, ?_⟩
    intro a ha hb
    simp only [List.map_cons, List.map_nil, List.mem_singleton] at hb
    subst hb
    exact h ((hasKey_iff_mem_keys m a).mpr ha)

theorem mapAddToSet_idem (m : SMap) (k x : String)
    (hn : (m.map Prod.fst).Nodup) :
    mapAddToSet (mapAddToSet m k x) k x = mapAddToSet m k x := by
  have hk2 : hasKey (mapAddToSet m k x) k = true := by
    rw [hasKey_mapAddToSet]
    simp
  have hmem : x ∈ getD (mapAddToSet m k x) k := by
    rw [getD_mapAddToSet_self, mem_setAdd]
    exact Or.inr rfl
  rw [mapAddToSet_of_hasKey _ _ _ hk2]
  have hadd : setAdd (getD (mapAddToSet m k x) k) x = getD (mapAddToSet m k x) k := by
    unfold setAdd
    rw [if_pos (by simpa using hmem : (getD (mapAddToSet m k x) k).contains x = true)]
  rw [hadd]
  exact setK_getD_self _ _ (keys_nodup_mapAddToSet m k x hn) hk2

theorem getD_nodup (m : SMap) (k : String) (h : ∀ p ∈ m, p.2.Nodup) :
    (getD m k).Nodup := by
  induction m with
  | nil => simp [getD]
  | cons p rest ih =>
    simp only [getD]
    by_cases hp : (p.1 == k) = true
    · rw [if_pos hp]
      exact h p (List.mem_cons_self p rest)
    · rw [if_neg hp]
      exact ih (fun q hq => h q (List.mem_cons_of_mem p hq))

theorem setAdd_nodup (s : List String) (x : String) (h : s.Nodup) :
    (setAdd s x).Nodup := by
  unfold setAdd
  by_cases hc : s.contains x = true
  · rw [if_pos hc]
    exact h
  · rw [if_neg hc]
    rw [List.nodup_append]
    refine ⟨h, List.nodup_singleton x, ?_⟩
    intro a ha hb
    rw [List.mem_singleton] at hb
    subst hb
    exact hc (by simpa using ha)

/-- C6: subscribing twice with the same socket and order gives exactly the
same registry state as subscribing once; a subscribe never fails, the
socket appears at most once in the order's subscriber set, the order at
most once in the socket's subscription set, and both entries exist
afterwards. -/
theorem C6_subscribe_idempotent (r : Registry) (sid oid : String) (hw : WF r) :
    subscribeToOrder (subscribeToOrder r sid oid) sid oid =
      subscribeToOrder r sid oid ∧
    (getD (subscribeToOrder r sid oid).orderClients oid).count sid ≤ 1 ∧
    (getD (subscribeToOrder r sid oid).clientOrders sid).count oid ≤ 1 ∧
    hasKey (subscribeToOrder r sid oid).orderClients oid = true ∧
    hasKey (subscribeToOrder r sid oid).clientOrders sid = true := by
  obtain ⟨oc, co, rm⟩ := r
  obtain ⟨hn1, hn2, hn3, hs1, hs2, _⟩ := hw
  refine ⟨?_, ?_, ?_, ?_, ?_⟩
  · show (Registry.mk (mapAddToSet (mapAddToSet oc oid sid) oid sid)
        (mapAddToSet (mapAddToSet co sid oid) sid oid)
        (mapAddToSet (mapAddToSet rm ("order-" ++ oid) sid) ("order-" ++ oid) sid)) =
      Registry.mk (mapAddToSet oc oid sid) (mapAddToSet co sid oid)
        (mapAddToSet rm ("order-" ++ oid) sid)
    rw [mapAddToSet_idem oc oid sid hn1, mapAddToSet_idem co sid oid hn2,
      mapAddToSet_idem rm ("order-" ++ oid) sid hn3]
  · show (getD (mapAddToSet oc oid sid) oid).count sid ≤ 1
    rw [getD_mapAddToSet_self]
    exact List.nodup_iff_count_le_one.mp (setAdd_nodup _ _ (getD_nodup oc oid hs1)) sid
  · show (getD (mapAddToSet co sid oid) sid).count oid ≤ 1
    rw [getD_mapAddToSet_self]
    exact List.nodup_iff_count_le_one.mp (setAdd_nodup _ _ (getD_nodup co sid hs2)) oid
  · show hasKey (mapAddToSet oc oid sid) oid = true
    rw [hasKey_mapAddToSet]
    simp
  · show hasKey (mapAddToSet co sid oid) sid = true
    rw [hasKey_mapAddToSet]
    simp

/-- Witness for C6 at the empty registry. -/
theorem C6_subscribe_idempotent_witness :
    subscribeToOrder (subscribeToOrder emptyRegistry "H" "T") "H" "T" =
      subscribeToOrder emptyRegistry "H" "T" ∧
    hasKey (subscribeToOrder emptyRegistry "H" "T").orderClients "T" = true :=
  ⟨(C6_subscribe_idempotent emptyRegistry "H" "T" (by decide)).1,
    (C6_subscribe_idempotent emptyRegistry "H" "T" (by decide)).2.2.2.1⟩

/-! ### Idempotence of unsubscribe and disconnect (claim C7) -/

theorem isEmpty_false_of_ne_nil {l : List String} (h : l ≠ []) :
    l.isEmpty = false := by
  cases l with
  | nil => exact absurd rfl h
  | cons a t => rfl

theorem mapRemoveFromSet_of_not_hasKey (m : SMap) (k x : String)
    (h : hasKey m k = false) : mapRemoveFromSet m k x = m := by
  unfold mapRemoveFromSet
  rw [if_neg (by simp [h])]

theorem mapRemoveFromSet_prune (m : SMap) (k x : String)
    (h : hasKey m k = true) (he : (setDel (getD m k) x).isEmpty = true) :
    mapRemoveFromSet m k x = delK m k := by
  unfold mapRemoveFromSet
  rw [if_pos h, if_pos he]

theorem mapRemoveFromSet_keep (m : SMap) (k x : String)
    (h : hasKey m k = true) (he : (setDel (getD m k) x).isEmpty = false) :
    mapRemoveFromSet m k x = setK m k (setDel (getD m k) x) := by
  unfold mapRemoveFromSet
  rw [if_pos h, if_neg (by simp [he])]

theorem mapRemoveKeep_of_hasKey (m : SMap) (k x : String)
    (h : hasKey m k = true) :
    mapRemoveKeep m k x = setK m k (setDel (getD m k) x) := by
  unfold mapRemoveKeep
  rw [if_pos h]

theorem mapRemoveKeep_of_not_hasKey (m : SMap) (k x : String)
    (h : hasKey m k = false) : mapRemoveKeep m k x = m := by
  unfold mapRemoveKeep
  rw [if_neg (by simp [h])]

theorem keys_nodup_mapRemoveFromSet (m : SMap) (k x : String)
    (hn : (m.map Prod.fst).Nodup) :
    ((mapRemoveFromSet m k x).map Prod.fst).Nodup := by
  by_cases h : hasKey m k = true
  · by_cases he : (setDel (getD m k) x).isEmpty = true
    · rw [mapRemoveFromSet_prune _ _ _ h he]
      exact List.Nodup.sublist (List.Sublist.map Prod.fst (List.filter_sublist m)) hn
    · rw [mapRemoveFromSet_keep _ _ _ h (by simpa using he), keys_setK _ _ _ h]
      exact hn
  · rw [mapRemoveFromSet_of_not_hasKey _ _ _ (by simpa using h)]
    exact hn

theorem keys_nodup_mapRemoveKeep (m : SMap) (k x : String)
    (hn : (m.map Prod.fst).Nodup) :
    ((mapRemoveKeep m k x).map Prod.fst).Nodup := by
  by_cases h : hasKey m k = true
  · rw [mapRemoveKeep_of_hasKey _ _ _ h, keys_setK _ _ _ h]
    exact hn
  · rw [mapRemoveKeep_of_not_hasKey _ _ _ (by simpa using h)]
    exact hn

theorem mapRemoveFromSet_idem (m : SMap) (k x : String)
    (hn : (m.map Prod.fst).Nodup) :
    mapRemoveFromSet (mapRemoveFromSet m k x) k x = mapRemoveFromSet m k x := by
  by_cases hk2 : hasKey (mapRemoveFromSet m k x) k = true
  · have h2 := (hasKey_mapRemoveFromSet_iff m k x k).mp hk2
    have hne : setDel (getD m k) x ≠ [] := fun he => h2.2 ⟨rfl, he⟩
    have hg : getD (mapRemoveFromSet m k x) k = setDel (getD m k) x :=
      getD_mapRemoveFromSet_self m k x
    rw [mapRemoveFromSet_keep _ _ _ hk2
      (by rw [hg, setDel_setDel]; exact isEmpty_false_of_ne_nil hne)]
    rw [hg, setDel_setDel, ← hg]
    exact setK_getD_self _ _ (keys_nodup_mapRemoveFromSet m k x hn) hk2
  · rw [mapRemoveFromSet_of_not_hasKey _ _ _ (by simpa using hk2)]

theorem mapRemoveKeep_idem (m : SMap) (k x : String)
    (hn : (m.map Prod.fst).Nodup) :
    mapRemoveKeep (mapRemoveKeep m k x) k x = mapRemoveKeep m k x := by
  by_cases h : hasKey m k = true
  · have hk2 : hasKey (mapRemoveKeep m k x) k = true := by
      rw [hasKey_mapRemoveKeep]
      exact h
    have hg : getD (mapRemoveKeep m k x) k = setDel (getD m k) x :=
      getD_mapRemoveKeep_self m k x
    rw [mapRemoveKeep_of_hasKey _ _ _ hk2, hg, setDel_setDel, ← hg]
    exact setK_getD_self _ _ (keys_nodup_mapRemoveKeep m k x hn) hk2
  · have hf : hasKey m k = false := by simpa using h
    rw [mapRemoveKeep_of_not_hasKey m k x hf, mapRemoveKeep_of_not_hasKey m k x hf]

theorem disconnect_idem (r : Registry) (sid : String) :
    disconnectHandler (disconnectHandler r sid) sid = disconnectHandler r sid := by
  by_cases hk : hasKey r.clientOrders sid = true
  · apply disconnect_eq_self
    rw [disconnect_clientOrders r sid hk, hasKey_delK]
    simp
  · have hf : hasKey r.clientOrders sid = false := by simpa using hk
    rw [disconnect_eq_self r sid hf, disconnect_eq_self r sid hf]

theorem exists_entry_of_hasKey (m : SMap) (k : String) (h : hasKey m k = true) :
    ∃ p ∈ m, p.1 = k ∧ getD m k = p.2 := by
  induction m with
  | nil => simp [hasKey] at h
  | cons q rest ih =>
    by_cases hq : (q.1 == k) = true
    · refine ⟨q, List.mem_cons_self q rest, by simpa using hq, ?_⟩
      simp [getD, hq]
    · simp only [hasKey, hq, Bool.false_or] at h
      rcases ih h with ⟨p, hp, he, hg⟩
      refine ⟨p, List.mem_cons_of_mem q hp, he, ?_⟩
      simp only [getD, hq, Bool.false_eq_true, if_false]
      exact hg

theorem setDel_eq_self (s : List String) (x : String) (h : x ∉ s) :
    setDel s x = s := by
  unfold setDel
  apply List.filter_eq_self.mpr
  intro y hy
  rw [Bool.not_eq_true', beq_eq_false_iff_ne]
  exact fun e => h (e ▸ hy)

theorem mapRemoveFromSet_noop (m : SMap) (k x : String)
    (hn : (m.map Prod.fst).Nodup) (hne : ∀ p ∈ m, p.2 ≠ [])
    (hx : x ∉ getD m k) : mapRemoveFromSet m k x = m := by
  by_cases h : hasKey m k = true
  · have hd : setDel (getD m k) x = getD m k := setDel_eq_self _ _ hx
    rcases exists_entry_of_hasKey m k h with ⟨p, hp, _, hg⟩
    have hnil : getD m k ≠ [] := by
      rw [hg]
      exact hne p hp
    rw [mapRemoveFromSet_keep m k x h
      (by rw [hd]; exact isEmpty_false_of_ne_nil hnil), hd]
    exact setK_getD_self m k hn h
  · exact mapRemoveFromSet_of_not_hasKey m k x (by simpa using h)

theorem mapRemoveKeep_noop (m : SMap) (k x : String)
    (hn : (m.map Prod.fst).Nodup) (hx : x ∉ getD m k) :
    mapRemoveKeep m k x = m := by
  by_cases h : hasKey m k = true
  · rw [mapRemoveKeep_of_hasKey m k x h, setDel_eq_self _ _ hx]
    exact setK_getD_self m k hn h
  · exact mapRemoveKeep_of_not_hasKey m k x (by simpa using h)

/-- C7: unsubscribing twice, or disconnecting twice, leaves the registry
exactly as after the first call; both operations are total; and
unsubscribing a pairing that is not present — even when the topic still has
other subscribers or the handle still has other subscriptions — changes
nothing at all.  The no-op conjunct assumes the invariants every state of
the running program satisfies: unique map keys (`WF`), no empty
`orderClients` entries (claim C4), no empty rooms (the socket.io adapter
drops a room with its last member), and room membership agreeing with the
subscription pairing (the handlers join and leave the room exactly on
subscribe and unsubscribe). -/
theorem C7_unsubscribe_disconnect_idempotent (r : Registry) (sid oid : String)
    (hw : WF r) :
    unsubscribeFromOrder (unsubscribeFromOrder r sid oid) sid oid =
      unsubscribeFromOrder r sid oid ∧
    disconnectHandler (disconnectHandler r sid) sid = disconnectHandler r sid ∧
    ((∀ p ∈ r.orderClients, p.2 ≠ []) → (∀ p ∈ r.rooms, p.2 ≠ []) →
      sid ∉ getD r.orderClients oid → oid ∉ getD r.clientOrders sid →
      sid ∉ getD r.rooms ("order-" ++ oid) →
      unsubscribeFromOrder r sid oid = r) := by
  obtain ⟨oc, co, rm⟩ := r
  obtain ⟨hn1, hn2, hn3, _, _, _⟩ := hw
  refine ⟨?_, disconnect_idem _ sid, ?_⟩
  · show (Registry.mk (mapRemoveFromSet (mapRemoveFromSet oc oid sid) oid sid)
        (mapRemoveKeep (mapRemoveKeep co sid oid) sid oid)
        (mapRemoveFromSet (mapRemoveFromSet rm ("order-" ++ oid) sid)
          ("order-" ++ oid) sid)) =
      Registry.mk (mapRemoveFromSet oc oid sid) (mapRemoveKeep co sid oid)
        (mapRemoveFromSet rm ("order-" ++ oid) sid)
    rw [mapRemoveFromSet_idem oc oid sid hn1, mapRemoveKeep_idem co sid oid hn2,
      mapRemoveFromSet_idem rm ("order-" ++ oid) sid hn3]
  · intro hocne hrmne hoc hco hrm
    show Registry.mk (mapRemoveFromSet oc oid sid) (mapRemoveKeep co sid oid)
        (mapRemoveFromSet rm ("order-" ++ oid) sid) = Registry.mk oc co rm
    rw [mapRemoveFromSet_noop oc oid sid hn1 hocne hoc,
      mapRemoveKeep_noop co sid oid hn2 hco,
      mapRemoveFromSet_noop rm ("order-" ++ oid) sid hn3 hrmne hrm]

/-- State with topic `"T"` held by the other subscriber `"H2"` and handle
`"H"` holding the other subscription `"T2"`, so that the pairing
`("T","H")` is absent while both its topic and its handle are present. -/
def scenario3 : Registry :=
  subscribeToOrder (subscribeToOrder emptyRegistry "H2" "T") "H" "T2"

/-- Witness for C7: double unsubscribe, and the absent-pairing no-op in the
general case — topic `"T"` still has subscriber `"H2"` and handle `"H"`
still has subscription `"T2"`, yet `Unsubscribe("T","H")` returns the state
unchanged. -/
theorem C7_unsubscribe_disconnect_idempotent_witness :
    unsubscribeFromOrder (unsubscribeFromOrder scenario3 "H" "T") "H" "T" =
      unsubscribeFromOrder scenario3 "H" "T" ∧
    unsubscribeFromOrder scenario3 "H" "T" = scenario3 :=
  ⟨(C7_unsubscribe_disconnect_idempotent scenario3 "H" "T" (by decide)).1,
    (C7_unsubscribe_disconnect_idempotent scenario3 "H" "T" (by decide)).2.2
      (by decide) (by decide) (by decide) (by decide) (by decide)⟩

/-! ### Subscriber count (claim C8) -/

/-- The count `orderClients.get(orderId)?.size || 0` read by
`broadcastOrderUpdate` (src/index.js lines 274-276) and by the
`/api/websocket/test/:orderId` endpoint (line 1036). -/
def subscriberCount (r : Registry) (oid : String) : Nat :=
  if hasKey r.orderClients oid then (getD r.orderClients oid).length else 0

/-- C8: the subscriber count is the cardinality of the topic's subscriber
set when the topic is present, zero when it is absent, and at least 1 right
after a subscribe to that topic. -/
theorem C8_subscriber_count (r : Registry) (t sid : String) (hw : WF r) :
    (hasKey r.orderClients t = true →
      subscriberCount r t = (getD r.orderClients t).toFinset.card) ∧
    (hasKey r.orderClients t = false → subscriberCount r t = 0) ∧
    1 ≤ subscriberCount (subscribeToOrder r sid t) t := by
  refine ⟨?_, ?_, ?_⟩
  · intro hk
    unfold subscriberCount
    rw [if_pos hk, List.toFinset_card_of_nodup (getD_nodup r.orderClients t hw.2.2.2.1)]
  · intro hk
    unfold subscriberCount
    rw [if_neg (by simp [hk])]
  · unfold subscriberCount
    have hk : hasKey (subscribeToOrder r sid t).orderClients t = true := by
      rw [subscribe_orderClients, hasKey_mapAddToSet]
      simp
    rw [if_pos hk, subscribe_orderClients, getD_mapAddToSet_self]
    exact List.length_pos.mpr (setAdd_ne_nil _ _)

/-- Witness for C8 at the registry `Subscribe("H","T")`, at the present
topic `"T"` and the absent topic `"X"`. -/
theorem C8_subscriber_count_witness :
    subscriberCount (subscribeToOrder emptyRegistry "H" "T") "T" =
      (getD (subscribeToOrder emptyRegistry "H" "T").orderClients "T").toFinset.card ∧
    subscriberCount (subscribeToOrder emptyRegistry "H" "T") "X" = 0 ∧
    1 ≤ subscriberCount
      (subscribeToOrder (subscribeToOrder emptyRegistry "H" "T") "H2" "T") "T" :=
  ⟨(C8_subscriber_count (subscribeToOrder emptyRegistry "H" "T") "T" "H2"
      (by decide)).1 (by decide),
    (C8_subscriber_count (subscribeToOrder emptyRegistry "H" "T") "X" "H2"
      (by decide)).2.1 (by decide),
    (C8_subscriber_count (subscribeToOrder emptyRegistry "H" "T") "T" "H2"
      (by decide)).2.2⟩

/-! ### The broadcaster (claims C2, C3, C9)

`broadcastOrderUpdate` (src/index.js lines 251-278) delivers an update in
two ways: method 1 iterates over `orderClients.get(orderId)` and calls
`io.to(socketId).emit(...)` for each subscriber, building the payload — and
thus evaluating `new Date().toISOString()` — afresh inside each iteration;
method 2 then calls `io.to("order-" + orderId).emit(...)` once, with one
further `new Date()` evaluation, and the adapter delivers that single
payload to every socket in the room.  The wall clock is modelled as an
oracle `clock : Nat → Nat` indexed by the number of `new Date()` reads
performed so far. -/

/-- One message emitted over the socket transport: order id, the update
payload (abstracted to its status string), and the attached timestamp. -/
structure Msg where
  orderId : String
  data : String
  timestamp : Nat
deriving DecidableEq, Repr

/-- Method 1 of `broadcastOrderUpdate`: the `forEach` over the subscriber
set, one `new Date()` read per emitted message. -/
def emitEach (oid data : String) (clock : Nat → Nat) :
    Nat → List String → List (String × Msg)
  | _, [] => []
  | k, sid :: rest =>
      (sid, ⟨oid, data, clock k⟩) :: emitEach oid data clock (k + 1) rest

/-- Model of `broadcastOrderUpdate(orderId, updateData)`: the per-subscriber emits
(method 1) followed by the room emit (method 2, a single clock read whose
value every room member receives).  The result is the list of deliveries
in emission order. -/
def broadcastOrderUpdate (r : Registry) (oid data : String) (clock : Nat → Nat)
    (k : Nat) : List (String × Msg) :=
  (if hasKey r.orderClients oid then
    emitEach oid data clock k (getD r.orderClients oid)
  else []) ++
  (getD r.rooms ("order-" ++ oid)).map (fun sid =>
    (sid, ⟨oid, data, clock (k +
      (if hasKey r.orderClients oid then (getD r.orderClients oid).length else 0))⟩))

/-- Number of deliveries addressed to a given socket id. -/
def countDeliveries (sid : String) (ds : List (String × Msg)) : Nat :=
  (ds.filter (fun d => d.1 == sid)).length

/-- The registry after `Subscribe(H1,"ORD-1"); Subscribe(H2,"ORD-1")`. -/
def scenario1 : Registry :=
  subscribeToOrder (subscribeToOrder emptyRegistry "H1" "ORD-1") "H2" "ORD-1"

/-- State `scenario1` followed by `Unsubscribe(H1,"ORD-1")`. -/
def scenario2 : Registry := unsubscribeFromOrder scenario1 "H1" "ORD-1"

/-- C2 fails as stated: in the scenario the first publish delivers TWO
messages to `H1` (one per-subscriber emit and one room emit), not exactly
one. -/
theorem C2_counterexample :
    ¬ (countDeliveries "H1"
        (broadcastOrderUpdate scenario1 "ORD-1" "delivered" (fun n => n) 0) = 1 ∧
      countDeliveries "H2"
        (broadcastOrderUpdate scenario1 "ORD-1" "delivered" (fun n => n) 0) = 1) := by
  decide

/-- C2 amended: both `H1` and `H2` receive the first publish — but twice
each (once via their subscription entry and once via the room), every copy
carrying status `"delivered"`; after `Unsubscribe(H1,"ORD-1")` the second
publish reaches only `H2` (again twice), and `H1` receives nothing. -/
theorem C2_amended_double_delivery (clock : Nat → Nat) (k : Nat) :
    countDeliveries "H1"
        (broadcastOrderUpdate scenario1 "ORD-1" "delivered" clock k) = 2 ∧
    countDeliveries "H2"
        (broadcastOrderUpdate scenario1 "ORD-1" "delivered" clock k) = 2 ∧
    (broadcastOrderUpdate scenario1 "ORD-1" "delivered" clock k).all
        (fun d => d.2.data == "delivered") = true ∧
    countDeliveries "H1"
        (broadcastOrderUpdate scenario2 "ORD-1" "failed" clock k) = 0 ∧
    countDeliveries "H2"
        (broadcastOrderUpdate scenario2 "ORD-1" "failed" clock k) = 2 ∧
    (broadcastOrderUpdate scenario2 "ORD-1" "failed" clock k).all
        (fun d => d.2.data == "failed") = true :=
  ⟨rfl, rfl, rfl, rfl, rfl, rfl⟩

/-- C3 fails as stated: with an advancing clock the two direct recipients
of one publish observe different timestamps, because `new Date()` is
evaluated inside the per-subscriber loop, not once at publish time. -/
theorem C3_counterexample :
    ¬ (∀ p ∈ broadcastOrderUpdate scenario1 "ORD-1" "delivered" (fun n => n) 0,
        ∀ q ∈ broadcastOrderUpdate scenario1 "ORD-1" "delivered" (fun n => n) 0,
          p.2.timestamp = q.2.timestamp) := by
  decide

theorem emitEach_const_all (oid data : String) (t : Nat) (k : Nat)
    (l : List String) :
    (emitEach oid data (fun _ => t) k l).all (fun d => d.2.timestamp == t) = true := by
  induction l generalizing k with
  | nil => rfl
  | cons sid rest ih =>
    simp only [emitEach, List.all_cons]
    rw [ih (k + 1)]
    simp

/-- C3 amended: the delivery timestamp is computed at each individual emit
(one clock read per directly-subscribed recipient, plus one read shared by
the room emit), so all recipients observe the same value only when the
clock does not advance between reads: with a constant clock every delivery
carries that constant, while with a clock that advances between the first
two reads the two direct recipients of the scenario publish observe
distinct timestamps. -/
theorem C3_amended_per_emit_timestamps (r : Registry) (oid data : String)
    (t k : Nat) (clock : Nat → Nat) (hc : clock 0 ≠ clock 1) :
    (broadcastOrderUpdate r oid data (fun _ => t) k).all
        (fun d => d.2.timestamp == t) = true ∧
    ∃ p ∈ broadcastOrderUpdate scenario1 "ORD-1" "delivered" clock 0,
      ∃ q ∈ broadcastOrderUpdate scenario1 "ORD-1" "delivered" clock 0,
        p.2.timestamp ≠ q.2.timestamp := by
  constructor
  · unfold broadcastOrderUpdate
    rw [List.all_append, Bool.and_eq_true]
    constructor
    · by_cases h : hasKey r.orderClients oid = true
      · rw [if_pos h]
        exact emitEach_const_all oid data t k _
      · rw [if_neg h]
        rfl
    · rw [List.all_eq_true]
      intro d hd
      rcases List.mem_map.mp hd with ⟨sid, _, he⟩
      rw [← he]
      simp
  · have hb : broadcastOrderUpdate scenario1 "ORD-1" "delivered" clock 0 =
        [("H1", ⟨"ORD-1", "delivered", clock 0⟩),
         ("H2", ⟨"ORD-1", "delivered", clock 1⟩),
         ("H1", ⟨"ORD-1", "delivered", clock 2⟩),
         ("H2", ⟨"ORD-1", "delivered", clock 2⟩)] := rfl
    refine ⟨("H1", ⟨"ORD-1", "delivered", clock 0⟩), ?_,
      ("H2", ⟨"ORD-1", "delivered", clock 1⟩), ?_, hc⟩
    · rw [hb]
      exact List.mem_cons_self _ _
    · rw [hb]
      exact List.mem_cons_of_mem _ (List.mem_cons_self _ _)

/-- Witness for C3-amended with the identity clock. -/
theorem C3_amended_per_emit_timestamps_witness :
    (broadcastOrderUpdate scenario1 "ORD-1" "delivered" (fun _ => 5) 0).all
        (fun d => d.2.timestamp == 5) = true ∧
    ∃ p ∈ broadcastOrderUpdate scenario1 "ORD-1" "delivered" (fun n => n) 0,
      ∃ q ∈ broadcastOrderUpdate scenario1 "ORD-1" "delivered" (fun n => n) 0,
        p.2.timestamp ≠ q.2.timestamp :=
  C3_amended_per_emit_timestamps scenario1 "ORD-1" "delivered" 5 0 (fun n => n)
    (by decide)

/-! ### Per-handle failure isolation (claim C9)

Delivery to an individual socket is performed by the transport
(`io.to(...).emit(...)`), which is fire-and-forget: it cannot throw into
the broadcasting function, and the broadcast loops contain no conditional
on delivery success and no error exit.  We run the broadcaster against a
failure oracle `fails : socket id → Bool` describing which individual
deliveries the transport loses, and show that the attempted deliveries are
exactly those of the failure-free broadcast and that the call returns
without error. -/

/-- One attempted delivery: the target socket, the message, and whether
the transport actually delivered it. -/
structure DeliveryAttempt where
  target : String
  msg : Msg
  delivered : Bool
deriving DecidableEq, Repr

/-- A general-update message (`broadcastGeneralUpdate`, src/index.js lines
281-286): payload plus one timestamp read shared by all recipients. -/
structure GeneralMsg where
  data : String
  timestamp : Nat
deriving DecidableEq, Repr

/-- One attempted general-update delivery. -/
structure GeneralAttempt where
  target : String
  msg : GeneralMsg
  delivered : Bool
deriving DecidableEq, Repr

/-- Method 1 of `broadcastOrderUpdate` run against the failure oracle:
every subscriber is emitted to in turn, whatever happened to the
previous emits. -/
def attemptEach (oid data : String) (clock : Nat → Nat) (fails : String → Bool) :
    Nat → List String → List DeliveryAttempt
  | _, [] => []
  | k, sid :: rest =>
      ⟨sid, ⟨oid, data, clock k⟩, !fails sid⟩ ::
        attemptEach oid data clock fails (k + 1) rest

/-- Run of `broadcastOrderUpdate` against the failure oracle.  The function
has no error exit — the `Except` codomain records the absence of any
error path back to the caller that triggered the update. -/
def broadcastOrderUpdateRun (r : Registry) (oid data : String)
    (clock : Nat → Nat) (k : Nat) (fails : String → Bool) :
    Except String (List DeliveryAttempt) :=
  Except.ok
    ((if hasKey r.orderClients oid then
        attemptEach oid data clock fails k (getD r.orderClients oid)
      else []) ++
      (getD r.rooms ("order-" ++ oid)).map (fun sid =>
        ⟨sid, ⟨oid, data, clock (k +
          (if hasKey r.orderClients oid then (getD r.orderClients oid).length
           else 0))⟩, !fails sid⟩))

/-- Run of `broadcastGeneralUpdate(data)` (src/index.js lines 281-286) against
the failure oracle: `io.emit` targets every connected socket with one
shared timestamp read. -/
def broadcastGeneralUpdateRun (conn : List String) (data : String)
    (clock : Nat → Nat) (k : Nat) (fails : String → Bool) :
    Except String (List GeneralAttempt) :=
  Except.ok (conn.map (fun sid => ⟨sid, ⟨data, clock k⟩, !fails sid⟩))

theorem attemptEach_map (oid data : String) (clock : Nat → Nat)
    (fails : String → Bool) (k : Nat) (l : List String) :
    (attemptEach oid data clock fails k l).map (fun a => (a.target, a.msg)) =
      emitEach oid data clock k l := by
  induction l generalizing k with
  | nil => rfl
  | cons sid rest ih =>
    simp only [attemptEach, emitEach, List.map_cons]
    rw [ih (k + 1)]

/-- C9: whatever individual deliveries fail, the broadcaster attempts
exactly the deliveries of the failure-free broadcast (a failed delivery to
one handle does not prevent the attempts to the remaining handles), and
both broadcast calls return without error. -/
theorem C9_delivery_failure_isolated (r : Registry) (oid data : String)
    (clock : Nat → Nat) (k : Nat) (fails : String → Bool) (conn : List String) :
    (∃ l, broadcastOrderUpdateRun r oid data clock k fails = Except.ok l ∧
      l.map (fun a => (a.target, a.msg)) =
        broadcastOrderUpdate r oid data clock k) ∧
    (∃ g, broadcastGeneralUpdateRun conn data clock k fails = Except.ok g ∧
      g.map (fun a => a.target) = conn) := by
  constructor
  · refine ⟨_, rfl, ?_⟩
    unfold broadcastOrderUpdate
    rw [List.map_append, List.map_map]
    by_cases h : hasKey r.orderClients oid = true
    · rw [if_pos h, if_pos h, if_pos h, attemptEach_map]
      rfl
    · rw [if_neg h, if_neg h, if_neg h]
      rfl
  · refine ⟨_, rfl, ?_⟩
    rw [List.map_map]
    exact List.map_id conn

end FirebaseAdminServer
